import Mathlib

/-!
# Verification of the RE/flex pattern compiler and matcher core

This development gives a shallow embedding in Lean 4 of the parts of the
RE/flex regular-expression pattern compiler and lexer runtime that the
specification's claims are about, and proves (or refutes) each claim
against the embedded code.

Embedding conventions:
* C++ unsigned machine integers are modelled as `Nat` with explicit
  `% 2^w` truncation exactly where the C++ type forces a truncation
  (`Opcode` is `uint_least32_t`, `Pred` is `unsigned char`, words of
  `Chars::b[]` are 64-bit).
* Arrays indexed by bytes or hashes are modelled as functions `Nat → Nat`.
* Code that prints or throws is modelled by returning the would-be
  effects explicitly.
-/

namespace Reflex

/-! ## Constants (Pattern::Const, pattern.hpp) -/

/-- `Const::HASH = 0x1000`, size of the predict-match arrays. -/
def HASH : Nat := 0x1000

/-- `Lexer::REDO = 0x7FFFFFFF`, the sentinel accept code for negative
patterns. -/
def REDO : Nat := 0x7FFFFFFF

/-! ## The rolling hash (Pattern::hash, pattern.hpp) -/

/-- `Pattern::hash(h, b) = ((h << 3) ^ b) & (Const::HASH - 1)`. -/
def hash (h b : Nat) : Nat :=
  ((h <<< 3) ^^^ b) &&& (HASH - 1)

/-- The hash chain threaded through `predict_match(pmh, s, n)`:
`h_0 = s 0` and `h_k = hash (h_(k-1)) (s k)`. -/
def hashChain (s : Nat → Nat) : Nat → Nat
  | 0 => s 0
  | k + 1 => hash (hashChain s k) (s (k + 1))

/-! ## predict_match over the pmh array (Pattern::predict_match(pmh,s,n)) -/

/-- The `while (++s < e)` loop of `predict_match(pmh, s, n)`: `k` is the
index of the byte read in the current iteration, `h` the hash computed so
far, and `m` the current 8-bit mask (`Pred m`, so `m <<= 1` truncates to
8 bits). -/
def pmhLoop (pmh s : Nat → Nat) (h m k n : Nat) : Bool :=
  if _hk : k < n then
    let h2 := hash h (s k)
    if pmh h2 &&& m ≠ 0 then false
    else pmhLoop pmh s h2 ((m <<< 1) % 256) (k + 1) n
  else true
termination_by n - k

/-- `Pattern::predict_match(const Pred pmh[], const char *s, size_t n)`:
the four unrolled header checks with masks 1, 2, 4, 8 followed by the
loop over bytes `s[4] .. s[n-1]` starting with mask 16. -/
def predict_match_pmh (pmh s : Nat → Nat) (n : Nat) : Bool :=
  let h0 := s 0
  if pmh h0 &&& 1 ≠ 0 then false
  else
    let h1 := hash h0 (s 1)
    if pmh h1 &&& 2 ≠ 0 then false
    else
      let h2 := hash h1 (s 2)
      if pmh h2 &&& 4 ≠ 0 then false
      else
        let h3 := hash h2 (s 3)
        if pmh h3 &&& 8 ≠ 0 then false
        else pmhLoop pmh s h3 16 4 n

/-! ## predict_match over the pma array (Pattern::predict_match(pma,s)) -/

/-- The combined 2-bit-per-offset filter word `m` computed by
`predict_match(pma, s)` from `pma[s[0]]` and the rolling hashes of
`s[0..1]`, `s[0..2]`, `s[0..3]`.  The filter rules a match out exactly
when this word is `0xff`. -/
def pmaFilter (pma s : Nat → Nat) : Nat :=
  let b0 := s 0
  let b1 := s 1
  let b2 := s 2
  let b3 := s 3
  let h1 := hash b0 b1
  let h2 := hash h1 b2
  let h3 := hash h2 b3
  let a0 := pma b0
  let a1 := pma h1
  let a2 := pma h2
  let a3 := pma h3
  let p := (a0 &&& 0xc0) ||| (a1 &&& 0x30) ||| (a2 &&& 0x0c) ||| (a3 &&& 0x03)
  (((((p >>> 2) ||| p) >>> 2) ||| p) >>> 1) ||| p

/-- `Pattern::predict_match(const Pred pma[], const char *s)`: returns 0
when a match is predicted, otherwise a shift value 1..4. -/
def predict_match_pma (pma s : Nat → Nat) : Nat :=
  if pmaFilter pma s ≠ 0xff then 0
  else if pma (s 1) &&& 0xc0 ≠ 0xc0 then 1
  else if pma (s 2) &&& 0xc0 ≠ 0xc0 then 2
  else if pma (s 3) &&& 0xc0 ≠ 0xc0 then 3
  else 4

/-! ## Lemmas about the pmh hash chain -/

theorem hashChain_eq_of_pos (s : Nat → Nat) (k : Nat) (hk : 0 < k) :
    hashChain s k = hash (hashChain s (k - 1)) (s k) := by
  obtain ⟨k', rfl⟩ : ∃ k', k = k' + 1 := ⟨k - 1, by omega⟩
  simp [hashChain]

theorem mask_step (k : Nat) : ((2 ^ k % 256) <<< 1) % 256 = 2 ^ (k + 1) % 256 := by
  rw [Nat.shiftLeft_eq]
  simp only [pow_one]
  rw [Nat.mod_mul_mod]
  ring_nf

theorem pmhLoop_eq (pmh s : Nat → Nat) (n : Nat) :
    ∀ k, 0 < k →
      (pmhLoop pmh s (hashChain s (k - 1)) (2 ^ k % 256) k n = true ↔
        ∀ j, k ≤ j → j < n → pmh (hashChain s j) &&& (2 ^ j % 256) = 0) := by
  suffices h : ∀ d k, 0 < k → d = n - k →
      (pmhLoop pmh s (hashChain s (k - 1)) (2 ^ k % 256) k n = true ↔
        ∀ j, k ≤ j → j < n → pmh (hashChain s j) &&& (2 ^ j % 256) = 0) by
    intro k hk
    exact h (n - k) k hk rfl
  intro d
  induction d with
  | zero =>
    intro k hk hd
    have hkn : ¬ k < n := by omega
    unfold pmhLoop
    simp only [hkn, dite_false]
    constructor
    · intro _ j hj1 hj2
      omega
    · intro _
      trivial
  | succ d ih =>
    intro k hk hd
    have hkn : k < n := by omega
    unfold pmhLoop
    rw [dif_pos hkn]
    rw [← hashChain_eq_of_pos s k hk, mask_step k]
    by_cases htest : pmh (hashChain s k) &&& (2 ^ k % 256) ≠ 0
    · rw [if_pos htest]
      constructor
      · intro hfalse
        simp at hfalse
      · intro hall
        exact absurd (hall k le_rfl hkn) htest
    · rw [if_neg htest]
      push_neg at htest
      have hk1 : hashChain s k = hashChain s ((k + 1) - 1) := by norm_num
      rw [hk1, ih (k + 1) (by omega) (by omega)]
      constructor
      · intro hall j hj1 hj2
        rcases Nat.eq_or_lt_of_le hj1 with h | h
        · exact h ▸ htest
        · exact hall j h hj2
      · intro hall j hj1 hj2
        exact hall j (by omega) hj2

theorem predict_match_pmh_eq (pmh s : Nat → Nat) (n : Nat) (hn : 4 ≤ n) :
    predict_match_pmh pmh s n = true ↔
      ∀ k, k < n → pmh (hashChain s k) &&& (2 ^ k % 256) = 0 := by
  have hdef : predict_match_pmh pmh s n =
      (if pmh (s 0) &&& 1 ≠ 0 then false
       else if pmh (hash (s 0) (s 1)) &&& 2 ≠ 0 then false
       else if pmh (hash (hash (s 0) (s 1)) (s 2)) &&& 4 ≠ 0 then false
       else if pmh (hash (hash (hash (s 0) (s 1)) (s 2)) (s 3)) &&& 8 ≠ 0 then false
       else pmhLoop pmh s (hash (hash (hash (s 0) (s 1)) (s 2)) (s 3)) 16 4 n) := rfl
  rw [hdef]
  by_cases h0 : pmh (s 0) &&& 1 ≠ 0
  · rw [if_pos h0]
    constructor
    · intro h
      simp at h
    · intro hall
      have h := hall 0 (by omega)
      simp [hashChain] at h
      exact absurd h (by simpa using h0)
  rw [if_neg h0]
  push_neg at h0
  by_cases h1 : pmh (hash (s 0) (s 1)) &&& 2 ≠ 0
  · rw [if_pos h1]
    constructor
    · intro h
      simp at h
    · intro hall
      have h := hall 1 (by omega)
      simp [hashChain] at h
      exact absurd h (by simpa using h1)
  rw [if_neg h1]
  push_neg at h1
  by_cases h2 : pmh (hash (hash (s 0) (s 1)) (s 2)) &&& 4 ≠ 0
  · rw [if_pos h2]
    constructor
    · intro h
      simp at h
    · intro hall
      have h := hall 2 (by omega)
      simp [hashChain] at h
      exact absurd h (by simpa using h2)
  rw [if_neg h2]
  push_neg at h2
  by_cases h3 : pmh (hash (hash (hash (s 0) (s 1)) (s 2)) (s 3)) &&& 8 ≠ 0
  · rw [if_pos h3]
    constructor
    · intro h
      simp at h
    · intro hall
      have h := hall 3 (by omega)
      simp [hashChain] at h
      exact absurd h (by simpa using h3)
  rw [if_neg h3]
  push_neg at h3
  have hform : hash (hash (hash (s 0) (s 1)) (s 2)) (s 3) = hashChain s (4 - 1) := rfl
  have hmask : (16 : Nat) = 2 ^ 4 % 256 := by norm_num
  rw [hform, hmask, pmhLoop_eq pmh s n 4 (by omega)]
  constructor
  · intro hloop k hk
    by_cases hk4 : 4 ≤ k
    · exact hloop k hk4 hk
    · interval_cases k
      · simpa [hashChain] using h0
      · simpa [hashChain] using h1
      · simpa [hashChain] using h2
      · simpa [hashChain] using h3
  · intro hall j hj1 hj2
    exact hall j hj2

/-- **C6.** The predictor's rolling hash is deterministic (a function) and
satisfies `hash h b = ((h << 3) XOR b) & 0xFFF`, and the hash chain of
`predict_match(pmh, s, n)` starts with `h_0 = s[0]` and continues with
`h_k = hash h_(k-1) (s k)`: the pmh table is probed exactly at the chain
values `hashChain s k`, each against the 8-bit mask `2^k % 256`. -/
theorem C6_rolling_hash_chain :
    (∀ h b, hash h b = ((h <<< 3) ^^^ b) &&& 0xFFF) ∧
    (∀ s, hashChain s 0 = s 0) ∧
    (∀ s k, 0 < k → hashChain s k = hash (hashChain s (k - 1)) (s k)) ∧
    (∀ pmh s n, 4 ≤ n →
      (predict_match_pmh pmh s n = true ↔
        ∀ k, k < n → pmh (hashChain s k) &&& (2 ^ k % 256) = 0)) :=
  ⟨fun _ _ => rfl, fun _ => rfl, hashChain_eq_of_pos, predict_match_pmh_eq⟩

/-- Witness for C6: the theorem instantiated at a concrete string of
bytes 7 with the all-zero pmh table and length 5. -/
theorem C6_rolling_hash_chain_witness :
    0 < 2 ∧ (4 : Nat) ≤ 5 ∧
    hashChain (fun _ => 7) 2 = hash (hashChain (fun _ => 7) (2 - 1)) 7 ∧
    (predict_match_pmh (fun _ => 0) (fun _ => 7) 5 = true ↔
      ∀ k, k < 5 → (fun _ => (0 : Nat)) (hashChain (fun _ => 7) k) &&& (2 ^ k % 256) = 0) :=
  ⟨by decide, by decide,
   C6_rolling_hash_chain.2.2.1 (fun _ => 7) 2 (by decide),
   C6_rolling_hash_chain.2.2.2 (fun _ => 0) (fun _ => 7) 5 (by decide)⟩

/-- **C5.** For every 4-byte window `s`, `predict_match(pma, s)` returns a
shift in `{0,1,2,3,4}`; it returns 0 exactly when the combined
2-bit-per-offset filter word over `s[0..3]` is not `0xff` (i.e. does not
rule out a match); otherwise it returns the smallest `i ∈ {1,2,3}` with
`pma[s[i]] & 0xc0 ≠ 0xc0`, or 4 when no such `i` exists. -/
theorem C5_predict_match_pma_shift (pma s : Nat → Nat) :
    predict_match_pma pma s ≤ 4 ∧
    (predict_match_pma pma s = 0 ↔ pmaFilter pma s ≠ 0xff) ∧
    (pmaFilter pma s = 0xff →
      1 ≤ predict_match_pma pma s ∧
      (∀ j, 1 ≤ j → j < predict_match_pma pma s → pma (s j) &&& 0xc0 = 0xc0) ∧
      (predict_match_pma pma s ≤ 3 → pma (s (predict_match_pma pma s)) &&& 0xc0 ≠ 0xc0)) := by
  unfold predict_match_pma
  by_cases hf : pmaFilter pma s ≠ 0xff
  · rw [if_pos hf]
    exact ⟨by omega, by simpa using hf, fun hc => absurd hc hf⟩
  · rw [if_neg hf]
    push_neg at hf
    by_cases c1 : pma (s 1) &&& 0xc0 ≠ 0xc0
    · rw [if_pos c1]
      refine ⟨by omega, by simp [hf], fun _ => ⟨by omega, ?_, fun _ => c1⟩⟩
      intro j hj1 hj2
      omega
    · rw [if_neg c1]
      push_neg at c1
      by_cases c2 : pma (s 2) &&& 0xc0 ≠ 0xc0
      · rw [if_pos c2]
        refine ⟨by omega, by simp [hf], fun _ => ⟨by omega, ?_, fun _ => c2⟩⟩
        intro j hj1 hj2
        interval_cases j
        exact c1
      · rw [if_neg c2]
        push_neg at c2
        by_cases c3 : pma (s 3) &&& 0xc0 ≠ 0xc0
        · rw [if_pos c3]
          refine ⟨by omega, by simp [hf], fun _ => ⟨by omega, ?_, fun _ => c3⟩⟩
          intro j hj1 hj2
          interval_cases j
          · exact c1
          · exact c2
        · rw [if_neg c3]
          push_neg at c3
          refine ⟨by omega, by simp [hf], fun _ => ⟨by omega, ?_, by omega⟩⟩
          intro j hj1 hj2
          interval_cases j
          · exact c1
          · exact c2
          · exact c3

/-- Witness for C5: with the all-ones pma table the filter reports
`0xff` (ruled out) on the window `0,1,2,3` and the minimality clause
instantiated at `j = 1` yields a concrete fact. -/
theorem C5_predict_match_pma_shift_witness :
    pmaFilter (fun _ => 0xff) (fun i => i) = 0xff ∧ (0xff : Nat) &&& 0xc0 = 0xc0 :=
  ⟨by decide,
   ((C5_predict_match_pma_shift (fun _ => 0xff) (fun i => i)).2.2
     (by decide)).2.1 1 (by decide) (by decide)⟩

/-! ## Opcode construction and classification
(`FSM_Generator::opcode_goto` and friends, `Pattern::is_opcode_goto`).
`Opcode` is `uint_least32_t`, so shifts truncate modulo `2^32`;
`lo`/`hi` are 16-bit `Char` values. -/

/-- `Pattern::Meta::MIN = 0x100`. -/
def META_MIN : Nat := 0x100

/-- `is_meta(c) = c > Pattern::Meta::MIN`. -/
def is_meta (c : Nat) : Bool := decide (META_MIN < c)

/-- `opcode_goto(lo, hi, index)`: byte-range GOTO `(lo << 24)|(hi << 16)|index`,
or meta GOTO `(lo << 24)|index` when `lo` is a meta char (the 32-bit cast
truncates `lo << 24` modulo `2^32`). -/
def opcode_goto (lo hi index : Nat) : Nat :=
  if is_meta lo then ((lo <<< 24) % 2 ^ 32) ||| index
  else ((lo <<< 24) % 2 ^ 32) ||| ((hi <<< 16) ||| index)

/-- `opcode_head(index) = 0xFB000000 | (index & 0xFFFFFF)`. -/
def opcode_head (index : Nat) : Nat := 0xFB000000 ||| (index &&& 0xFFFFFF)

/-- `opcode_tail(index) = 0xFC000000 | (index & 0xFFFFFF)`. -/
def opcode_tail (index : Nat) : Nat := 0xFC000000 ||| (index &&& 0xFFFFFF)

/-- `opcode_redo() = 0xFD000000`. -/
def opcode_redo : Nat := 0xFD000000

/-- `opcode_take(index) = 0xFE000000 | (index & 0xFFFFFF)`. -/
def opcode_take (index : Nat) : Nat := 0xFE000000 ||| (index &&& 0xFFFFFF)

/-- `opcode_long(index) = 0xFF000000 | (index & 0xFFFFFF)`. -/
def opcode_long (index : Nat) : Nat := 0xFF000000 ||| (index &&& 0xFFFFFF)

/-- `Pattern::is_opcode_goto(opcode) = (opcode << 8) >= (opcode & 0xFF000000)`
on 32-bit unsigned arithmetic. -/
def is_opcode_goto (opcode : Nat) : Bool :=
  decide (opcode &&& 0xFF000000 ≤ (opcode <<< 8) % 2 ^ 32)

/-! ### Bit-arithmetic helpers -/

theorem mul_pow_and_mul_pow (i a c : Nat) :
    (2 ^ i * a) &&& (2 ^ i * c) = 2 ^ i * (a &&& c) := by
  apply Nat.eq_of_testBit_eq
  intro j
  simp only [Nat.testBit_and, Nat.testBit_mul_pow_two]
  by_cases h : i ≤ j
  · simp [h, ge_iff_le]
  · simp [h, ge_iff_le]

theorem low_and_high_mask (r : Nat) (h : r < 2 ^ 24) : r &&& 0xFF000000 = 0 := by
  apply Nat.eq_of_testBit_eq
  intro j
  rw [show (0xFF000000 : Nat) = 2 ^ 24 * 255 from rfl]
  simp only [Nat.testBit_and, Nat.testBit_mul_pow_two, Nat.zero_testBit]
  by_cases hj : 24 ≤ j
  · have : r < 2 ^ j := lt_of_lt_of_le h (Nat.pow_le_pow_right (by omega) hj)
    simp [Nat.testBit_lt_two_pow this]
  · simp [ge_iff_le, hj]

theorem and_high_mask (hb r : Nat) (h1 : hb < 256) (h2 : r < 2 ^ 24) :
    (2 ^ 24 * hb + r) &&& 0xFF000000 = 2 ^ 24 * hb := by
  rw [Nat.mul_add_lt_is_or h2, Nat.and_distrib_right, low_and_high_mask r h2,
    Nat.or_zero, show (0xFF000000 : Nat) = 2 ^ 24 * 255 from rfl,
    mul_pow_and_mul_pow]
  congr 1
  rw [show (255 : Nat) = 2 ^ 8 - 1 from rfl, Nat.and_pow_two_sub_one_eq_mod]
  exact Nat.mod_eq_of_lt h1

/-- The core characterization: on a 32-bit word with high byte `hb`,
second byte `mb` and low 16 bits `lo16`, `is_opcode_goto` holds iff the
second byte is at least the high byte. -/
theorem is_opcode_goto_decomp (hb mb lo16 : Nat)
    (h1 : hb < 256) (h2 : mb < 256) (h3 : lo16 < 65536) :
    is_opcode_goto (2 ^ 24 * hb + 2 ^ 16 * mb + lo16) = decide (hb ≤ mb) := by
  unfold is_opcode_goto
  have hr : 2 ^ 16 * mb + lo16 < 2 ^ 24 := by omega
  have hmask : (2 ^ 24 * hb + 2 ^ 16 * mb + lo16) &&& 0xFF000000 = 2 ^ 24 * hb := by
    rw [Nat.add_assoc]
    exact and_high_mask hb _ h1 hr
  have hshift : ((2 ^ 24 * hb + 2 ^ 16 * mb + lo16) <<< 8) % 2 ^ 32 =
      2 ^ 24 * mb + 2 ^ 8 * lo16 := by
    rw [Nat.shiftLeft_eq]
    have : (2 ^ 24 * hb + 2 ^ 16 * mb + lo16) * 2 ^ 8 =
        2 ^ 32 * hb + (2 ^ 24 * mb + 2 ^ 8 * lo16) := by ring
    rw [this]
    omega
  rw [hmask, hshift]
  exact decide_eq_decide.mpr (by omega)

theorem is_opcode_goto_hb_r (hb r : Nat) (h1 : hb < 256) (h2 : r < 2 ^ 24) :
    is_opcode_goto (2 ^ 24 * hb + r) = decide (hb ≤ r / 2 ^ 16) := by
  have h := is_opcode_goto_decomp hb (r / 2 ^ 16) (r % 2 ^ 16) h1 (by omega) (by omega)
  rw [show 2 ^ 24 * hb + 2 ^ 16 * (r / 2 ^ 16) + r % 2 ^ 16 = 2 ^ 24 * hb + r by omega] at h
  exact h

theorem opcode_goto_byte_eq (lo hi idx : Nat)
    (hlo : lo ≤ 0xFF) (hhi : hi ≤ 0xFF) (hidx : idx < 2 ^ 16) :
    opcode_goto lo hi idx = 2 ^ 24 * lo + 2 ^ 16 * hi + idx := by
  unfold opcode_goto
  rw [if_neg (by simp [is_meta, META_MIN]; omega)]
  rw [Nat.shiftLeft_eq, Nat.shiftLeft_eq,
    Nat.mod_eq_of_lt (show lo * 2 ^ 24 < 2 ^ 32 by nlinarith),
    show hi * 2 ^ 16 = 2 ^ 16 * hi by ring, ← Nat.mul_add_lt_is_or hidx hi,
    show lo * 2 ^ 24 = 2 ^ 24 * lo by ring,
    ← Nat.mul_add_lt_is_or (show 2 ^ 16 * hi + idx < 2 ^ 24 by omega) lo]
  ring

theorem opcode_goto_meta_eq (m hi idx : Nat)
    (h1 : 0x100 < m) (h2 : m ≤ 0x1FF) (hidx : idx < 2 ^ 16) :
    opcode_goto m hi idx = 2 ^ 24 * (m - 256) + idx := by
  unfold opcode_goto
  rw [if_pos (by simp [is_meta, META_MIN]; omega)]
  rw [Nat.shiftLeft_eq,
    show m * 2 ^ 24 % 2 ^ 32 = 2 ^ 24 * (m - 256) by omega,
    ← Nat.mul_add_lt_is_or (show idx < 2 ^ 24 by omega) (m - 256)]

theorem opcode_marker_eq (hb idx : Nat) :
    2 ^ 24 * hb ||| (idx &&& 0xFFFFFF) = 2 ^ 24 * hb + idx % 2 ^ 24 := by
  rw [show (0xFFFFFF : Nat) = 2 ^ 24 - 1 from rfl, Nat.and_pow_two_sub_one_eq_mod,
    ← Nat.mul_add_lt_is_or (Nat.mod_lt idx (by omega)) hb]

/-- **C4, counterexample.** The claim asserts `is_opcode_goto` returns
true for every meta-class GOTO word; but on the BOL meta GOTO word built
by `opcode_goto(Meta::BOL = 0x107, ., 5)` (high byte 0x07, middle byte
zero, index 5) it returns false. -/
theorem C4_counterexample :
    is_opcode_goto (opcode_goto 0x107 0x107 5) = false := by decide

/-- **C4 (amended).** `is_opcode_goto` returns true for every word built
by `opcode_goto` over a byte range (`lo ≤ hi ≤ 0xFF`, 16-bit index),
returns FALSE (not true) for every meta-class GOTO word (meta char
0x101..0x10D, 16-bit index; such words are dispatched through the
non-GOTO opcode path of the interpreter), and returns false for every
HEAD, TAIL, REDO, TAKE and LONG marker word with an in-range index. -/
theorem C4_is_opcode_goto_classification :
    (∀ lo hi idx, lo ≤ hi → hi ≤ 0xFF → idx ≤ 0xFFFF →
      is_opcode_goto (opcode_goto lo hi idx) = true) ∧
    (∀ m hi idx, 0x100 < m → m ≤ 0x10D → idx ≤ 0xFFFF →
      is_opcode_goto (opcode_goto m hi idx) = false) ∧
    (∀ idx, idx ≤ 0xFAFFFF → is_opcode_goto (opcode_head idx) = false) ∧
    (∀ idx, idx ≤ 0xFAFFFF → is_opcode_goto (opcode_tail idx) = false) ∧
    (∀ idx, idx ≤ 0xFDFFFF → is_opcode_goto (opcode_take idx) = false) ∧
    is_opcode_goto opcode_redo = false ∧
    (∀ idx, idx ≤ 0xFEFFFF → is_opcode_goto (opcode_long idx) = false) := by
  refine ⟨?_, ?_, ?_, ?_, ?_, by decide, ?_⟩
  · intro lo hi idx hlh hh hi16
    rw [opcode_goto_byte_eq lo hi idx (by omega) hh (by omega),
      is_opcode_goto_decomp lo hi idx (by omega) (by omega) (by omega)]
    simpa using hlh
  · intro m hi idx hm1 hm2 hi16
    rw [opcode_goto_meta_eq m hi idx hm1 (by omega) (by omega),
      show 2 ^ 24 * (m - 256) + idx = 2 ^ 24 * (m - 256) + 2 ^ 16 * 0 + idx by ring,
      is_opcode_goto_decomp (m - 256) 0 idx (by omega) (by omega) (by omega)]
    simp
    omega
  · intro idx h
    unfold opcode_head
    rw [show (0xFB000000 : Nat) = 2 ^ 24 * 0xFB from rfl, opcode_marker_eq,
      is_opcode_goto_hb_r 0xFB (idx % 2 ^ 24) (by omega) (by omega)]
    simp
    omega
  · intro idx h
    unfold opcode_tail
    rw [show (0xFC000000 : Nat) = 2 ^ 24 * 0xFC from rfl, opcode_marker_eq,
      is_opcode_goto_hb_r 0xFC (idx % 2 ^ 24) (by omega) (by omega)]
    simp
    omega
  · intro idx h
    unfold opcode_take
    rw [show (0xFE000000 : Nat) = 2 ^ 24 * 0xFE from rfl, opcode_marker_eq,
      is_opcode_goto_hb_r 0xFE (idx % 2 ^ 24) (by omega) (by omega)]
    simp
    omega
  · intro idx h
    unfold opcode_long
    rw [show (0xFF000000 : Nat) = 2 ^ 24 * 0xFF from rfl, opcode_marker_eq,
      is_opcode_goto_hb_r 0xFF (idx % 2 ^ 24) (by omega) (by omega)]
    simp
    omega

/-- Witness for C4 (amended): the byte-range GOTO for the class `[a-z]`
with target state 3 is classified as a GOTO, and the HEAD marker with
lookahead index 1 is not. -/
theorem C4_is_opcode_goto_classification_witness :
    (97 : Nat) ≤ 122 ∧ (122 : Nat) ≤ 0xFF ∧ (3 : Nat) ≤ 0xFFFF ∧ (1 : Nat) ≤ 0xFAFFFF ∧
    is_opcode_goto (opcode_goto 97 122 3) = true ∧
    is_opcode_goto (opcode_head 1) = false :=
  ⟨by decide, by decide, by decide, by decide,
   C4_is_opcode_goto_classification.1 97 122 3 (by decide) (by decide) (by decide),
   C4_is_opcode_goto_classification.2.2.1 1 (by decide)⟩

/-! ## Chars: 320-bit sets of chars and meta chars
(`FSM_Generator::Chars` and the identical `Pattern::Chars`).
The five words `b[0..4]` are 64-bit (`unsigned long long` /
`uint_least64_t`); complement on a word is modelled as xor with the
all-ones 64-bit mask. -/

/-- All-ones 64-bit word, the value of `~0ULL`. -/
def U64MASK : Nat := 0xFFFFFFFFFFFFFFFF

structure Chars where
  b0 : Nat
  b1 : Nat
  b2 : Nat
  b3 : Nat
  b4 : Nat

/-- Array access `b[i]` of `Chars::b[5]` (callers index with `c >> 6`
for `c < 320`, so `i ≤ 4`). -/
def Chars.word (c : Chars) : Nat → Nat
  | 0 => c.b0
  | 1 => c.b1
  | 2 => c.b2
  | 3 => c.b3
  | _ => c.b4

/-- `Chars::contains(Char c) = b[c >> 6] & (1ULL << (c & 0x3F))` as a
boolean. -/
def Chars.contains (c : Chars) (ch : Nat) : Bool :=
  decide (c.word (ch >>> 6) &&& (1 <<< (ch &&& 0x3F)) ≠ 0)

/-- `Chars::flip256()`: complement `b[0] .. b[3]`, leave `b[4]`. -/
def Chars.flip256 (c : Chars) : Chars :=
  { c with
    b0 := c.b0 ^^^ U64MASK
    b1 := c.b1 ^^^ U64MASK
    b2 := c.b2 ^^^ U64MASK
    b3 := c.b3 ^^^ U64MASK }

/-- `Chars::operator|`, word-wise or. -/
def Chars.orC (x y : Chars) : Chars :=
  ⟨x.b0 ||| y.b0, x.b1 ||| y.b1, x.b2 ||| y.b2, x.b3 ||| y.b3, x.b4 ||| y.b4⟩

/-- `Chars::operator&`, word-wise and. -/
def Chars.andC (x y : Chars) : Chars :=
  ⟨x.b0 &&& y.b0, x.b1 &&& y.b1, x.b2 &&& y.b2, x.b3 &&& y.b3, x.b4 &&& y.b4⟩

/-- `Chars::operator==`, word-wise equality. -/
def Chars.eqC (x y : Chars) : Bool :=
  x.b0 == y.b0 && x.b1 == y.b1 && x.b2 == y.b2 && x.b3 == y.b3 && x.b4 == y.b4

theorem and_one_shift_ne_zero (x j : Nat) :
    (x &&& (1 <<< j) ≠ 0) ↔ x.testBit j = true := by
  rw [Nat.shiftLeft_eq, one_mul, Nat.and_two_pow]
  cases h : x.testBit j <;> simp [h, (Nat.two_pow_pos j).ne']

theorem contains_flip_word (x j : Nat) (hj : j < 64) :
    decide ((x ^^^ U64MASK) &&& (1 <<< j) ≠ 0) = ! decide (x &&& (1 <<< j) ≠ 0) := by
  have hM : Nat.testBit U64MASK j = true := by
    rw [show U64MASK = 2 ^ 64 - 1 from rfl, Nat.testBit_two_pow_sub_one]
    simpa using hj
  have hiff : ((x ^^^ U64MASK) &&& (1 <<< j) ≠ 0) ↔ ¬ (x &&& (1 <<< j) ≠ 0) := by
    rw [and_one_shift_ne_zero, and_one_shift_ne_zero, Nat.testBit_xor, hM]
    simp
  calc decide ((x ^^^ U64MASK) &&& (1 <<< j) ≠ 0)
      = decide (¬ (x &&& (1 <<< j) ≠ 0)) := decide_eq_decide.mpr hiff
    _ = ! decide (x &&& (1 <<< j) ≠ 0) := by simp

/-- **C7.** `flip256` complements exactly bits 0..255 and leaves bits
256..319 unchanged: containment of every 8-bit char is inverted, while
every meta char (value ≥ 0x100, up to the 320-bit capacity) is contained
after `flip256` iff it was contained before. -/
theorem C7_flip256_frame (A : Chars) (ch : Nat) :
    (ch < 256 → Chars.contains (Chars.flip256 A) ch = ! Chars.contains A ch) ∧
    (256 ≤ ch → ch < 320 → Chars.contains (Chars.flip256 A) ch = Chars.contains A ch) := by
  constructor
  · intro h
    have hj : ch &&& 0x3F < 64 := by
      rw [show (0x3F : Nat) = 2 ^ 6 - 1 from rfl, Nat.and_pow_two_sub_one_eq_mod]
      omega
    unfold Chars.contains
    rcases (show ch >>> 6 = 0 ∨ ch >>> 6 = 1 ∨ ch >>> 6 = 2 ∨ ch >>> 6 = 3 by
        rw [Nat.shiftRight_eq_div_pow]
        omega) with hc | hc | hc | hc <;>
      · rw [hc]
        simp only [Chars.word, Chars.flip256]
        exact contains_flip_word _ _ hj
  · intro h1 h2
    have hc : ch >>> 6 = 4 := by
      rw [Nat.shiftRight_eq_div_pow]
      omega
    unfold Chars.contains
    rw [hc]
    rfl

/-- Witness for C7: a concrete `Chars` value, the 8-bit char 65 and the
meta char `BOL = 0x107`. -/
theorem C7_flip256_frame_witness :
    (65 : Nat) < 256 ∧ (256 : Nat) ≤ 0x107 ∧ (0x107 : Nat) < 320 ∧
    Chars.contains (Chars.flip256 ⟨1, 2, 3, 4, 5⟩) 65 = ! Chars.contains ⟨1, 2, 3, 4, 5⟩ 65 ∧
    Chars.contains (Chars.flip256 ⟨1, 2, 3, 4, 5⟩) 0x107 = Chars.contains ⟨1, 2, 3, 4, 5⟩ 0x107 :=
  ⟨by decide, by decide, by decide,
   (C7_flip256_frame ⟨1, 2, 3, 4, 5⟩ 65).1 (by decide),
   (C7_flip256_frame ⟨1, 2, 3, 4, 5⟩ 0x107).2 (by decide) (by decide)⟩

/-- **C8.** On 320-bit `Chars` sets, intersection distributes over
union: `(A | B) & C == (A & C) | (B & C)`, equality as decided by
`Chars::operator==`. -/
theorem C8_chars_inter_union_distrib (A B C : Chars) :
    Chars.eqC (Chars.andC (Chars.orC A B) C)
      (Chars.orC (Chars.andC A C) (Chars.andC B C)) = true := by
  simp [Chars.eqC, Chars.andC, Chars.orC, Nat.and_distrib_right]

/-! ## Lexer::scan (lexer.hpp) -/

/-- `Lexer::scan()`: the `begin:` loop.  Each element of `caps` is the
value of `cap_` set by one invocation of the compiled FSM on the input
remaining at that point (each invocation consumes the region it
matched, so successive elements correspond to successive restart
positions); `A` is the "accept all" option `opt_.A`.  The loop re-runs
the FSM while `cap_ == REDO && !opt_.A` and returns the first surviving
`cap_`; `none` models a trace that never leaves the REDO case. -/
def scan (A : Bool) : List Nat → Option Nat
  | [] => none
  | c :: rest => if c = REDO ∧ A = false then scan A rest else some c

/-- **C1.** With option `A` off, `scan()` never returns the REDO
sentinel: a REDO result from the FSM is discarded and scanning restarts
on the remaining input; with option `A` on, `scan()` returns REDO to the
caller. -/
theorem C1_scan_redo_erasure (caps rest : List Nat) (c : Nat) :
    (scan false caps = some c → c ≠ REDO) ∧
    scan true (REDO :: rest) = some REDO ∧
    scan false (REDO :: rest) = scan false rest := by
  refine ⟨?_, ?_, ?_⟩
  · induction caps with
    | nil =>
      intro h
      simp [scan] at h
    | cons a t ih =>
      intro h
      by_cases ha : a = REDO
      · rw [scan, if_pos ⟨ha, rfl⟩] at h
        exact ih h
      · rw [scan, if_neg (by simp [ha])] at h
        cases h
        exact ha
  · rw [scan, if_neg (by simp)]
  · rw [scan, if_pos ⟨rfl, rfl⟩]

/-- Witness for C1: a trace whose first FSM run records REDO and whose
second records accept code 5. -/
theorem C1_scan_redo_erasure_witness :
    scan false [REDO, 5] = some 5 ∧ (5 : Nat) ≠ REDO ∧
    scan true (REDO :: [5]) = some REDO :=
  ⟨by decide,
   (C1_scan_redo_erasure [REDO, 5] [5] 5).1 (by decide),
   (C1_scan_redo_erasure [REDO, 5] [5] 5).2.1⟩

/-! ## FSM_Generator::error (pattern.hpp) and regex_error (error.hpp) -/

/-- `regex_error::error_code` (error.hpp). -/
inductive regex_error_type where
  | mismatched_parens
  | mismatched_braces
  | mismatched_brackets
  | mismatched_quotation
  | empty_expression
  | empty_class
  | invalid_class
  | invalid_class_range
  | invalid_escape
  | invalid_anchor
  | invalid_repeat
  | invalid_quantifier
  | invalid_modifier
  | invalid_collating
  | invalid_backreference
  | invalid_syntax
  | exceeds_length
  | exceeds_limits
  | undefined_name
deriving DecidableEq

/-- The two `FSM_Generator::Option` fields read by `error()`:
`throw_error` (flag `r`) and `print_error` (flag `w`). -/
structure GenOption where
  throw_error : Bool
  print_error : Bool

/-- A `regex_error` exception value: error code and position. -/
structure RegexErr where
  code : regex_error_type
  pos : Nat
deriving DecidableEq

/-- `FSM_Generator::error(code, pos)`: builds `regex_error err(code,
rex_, pos)`, prints `err.what()` to stderr when `opt_.print_error`, and
throws `err` when `code == regex_error::exceeds_limits ||
opt_.throw_error`.  Modelled as the pair (stderr output, control-flow
outcome). -/
def FSM_Generator_error (opt : GenOption) (code : regex_error_type) (pos : Nat) :
    List RegexErr × Except RegexErr Unit :=
  let err : RegexErr := ⟨code, pos⟩
  ((if opt.print_error then [err] else []),
   if code = .exceeds_limits ∨ opt.throw_error = true then .error err else .ok ())

/-- **C2.** `FSM_Generator::error(code, pos)` throws a `regex_error` iff
`code = exceeds_limits` or the `throw_error` (`r`) option is set; for
every other code with `r` unset, no exception propagates and control
returns normally; the message goes to stderr exactly when the
`print_error` (`w`) option is set. -/
theorem C2_error_fatal_iff (opt : GenOption) (code : regex_error_type) (pos : Nat) :
    ((FSM_Generator_error opt code pos).2 = .error ⟨code, pos⟩ ↔
      (code = .exceeds_limits ∨ opt.throw_error = true)) ∧
    ((FSM_Generator_error opt code pos).2 = .ok () ↔
      ¬(code = .exceeds_limits ∨ opt.throw_error = true)) ∧
    ((FSM_Generator_error opt code pos).1 = [⟨code, pos⟩] ↔ opt.print_error = true) ∧
    ((FSM_Generator_error opt code pos).1 = [] ↔ opt.print_error = false) := by
  unfold FSM_Generator_error
  by_cases hthrow : code = .exceeds_limits ∨ opt.throw_error = true <;>
    cases hp : opt.print_error <;>
      simp [hthrow, hp]

/-! ## Pattern::reachable (pattern.h) -/

/-- The two subpattern bookkeeping containers of `Pattern` read by
`size()` and `reachable()`: `end_` (one entry per subpattern) and
`acc_` (one reachability bit per subpattern). -/
structure PatternAcc where
  end_ : List Nat
  acc_ : List Bool

/-- `Pattern::size() = end_.size()`. -/
def PatternAcc.size (p : PatternAcc) : Nat := p.end_.length

/-- `Pattern::reachable(choice) = choice >= 1 && choice <= size() &&
acc_.at(choice - 1)`.  `std::vector::at` throws `std::out_of_range` on
an out-of-bounds index, modelled by `Except`; the `&&` short-circuit
means `at` is evaluated only when `1 ≤ choice ≤ size()`. -/
def PatternAcc.reachable (p : PatternAcc) (choice : Nat) : Except Unit Bool :=
  if 1 ≤ choice ∧ choice ≤ p.size then
    match p.acc_.get? (choice - 1) with
    | some b => .ok b
    | none => .error ()
  else .ok false

/-- **C9.** `reachable(choice)` returns false for `choice = 0` and for
`choice > size()`, returns the stored bit `acc_[choice-1]` for
`choice ∈ 1..size()`, and never accesses `acc_` out of bounds, under
the compilation invariant that `acc_` has one bit per subpattern
(`acc_.length = size()`, maintained by the pattern compiler). -/
theorem C9_reachable_safe (p : PatternAcc) (choice : Nat)
    (hinv : p.acc_.length = p.size) :
    (choice = 0 ∨ choice > p.size → p.reachable choice = .ok false) ∧
    (1 ≤ choice → choice ≤ p.size → ∀ b, p.acc_.get? (choice - 1) = some b →
      p.reachable choice = .ok b) ∧
    (∃ b, p.reachable choice = .ok b) := by
  refine ⟨?_, ?_, ?_⟩
  · intro h
    unfold PatternAcc.reachable
    rw [if_neg (by omega)]
  · intro h1 h2 b hb
    unfold PatternAcc.reachable
    rw [if_pos ⟨h1, h2⟩, hb]
  · by_cases h : 1 ≤ choice ∧ choice ≤ p.size
    · have hlt : choice - 1 < p.acc_.length := by omega
      refine ⟨p.acc_.get ⟨choice - 1, hlt⟩, ?_⟩
      unfold PatternAcc.reachable
      rw [if_pos h, List.get?_eq_get hlt]
    · exact ⟨false, by unfold PatternAcc.reachable; rw [if_neg h]⟩

/-- Witness for C9: a pattern with two subpatterns, the first
reachable and the second not. -/
theorem C9_reachable_safe_witness :
    ([true, false] : List Bool).length = PatternAcc.size ⟨[10, 20], [true, false]⟩ ∧
    PatternAcc.reachable ⟨[10, 20], [true, false]⟩ 1 = .ok true ∧
    PatternAcc.reachable ⟨[10, 20], [true, false]⟩ 3 = .ok false :=
  ⟨by decide,
   (C9_reachable_safe ⟨[10, 20], [true, false]⟩ 1 (by decide)).2.1
     (by decide) (by decide) true (by decide),
   (C9_reachable_safe ⟨[10, 20], [true, false]⟩ 3 (by decide)).1
     (by right; decide)⟩

/-! ## is_modified / update_modified (FSM_Generator, pattern.hpp) -/

/-- Modelled from the spec: `Locations = ORanges<Location>`, the
ordered-interval structure of the missing ranges header ("a set of
disjoint half-open ranges supporting insert/difference/membership",
design notes §9).  Modelled by its membership semantics: a decidable
set of locations. -/
abbrev Locations : Type := Nat → Bool

/-- The empty `Locations` (default-constructed `ORanges`). -/
def Locations.empty : Locations := fun _ => false

/-- `Locations(from, to)` / `insert(from, to)`: add the closed range
`from..to`. -/
def Locations.insert (L : Locations) (lo hi : Nat) : Locations :=
  fun x => L x || decide (lo ≤ x ∧ x ≤ hi)

/-- `operator-=`: set difference. -/
def Locations.diff (L M : Locations) : Locations := fun x => L x && ! M x

/-- `operator+=`: union. -/
def Locations.union (L M : Locations) : Locations := fun x => L x || M x

/-- Modelled from the spec: `Map = std::map<int, Locations>`;
`find` is lookup and `operator[]` default-constructs an empty
`Locations` under a missing key. -/
abbrev ModMap : Type := Nat → Option Locations

/-- `modifiers[mode]` read access: the stored set, or empty when the
key is absent. -/
def ModMap.get (m : ModMap) (k : Nat) : Locations := (m k).getD Locations.empty

/-- Store under key `k`. -/
def ModMap.update (m : ModMap) (k : Nat) (L : Locations) : ModMap :=
  fun j => if j = k then some L else m j

/-- `reversecase(c) = static_cast<unsigned char>(c ^ 0x20)`. -/
def reversecase (c : Nat) : Nat := (c ^^^ 0x20) % 256

/-- `FSM_Generator::is_modified(mode, modifiers, loc)`:
`modifiers.find(mode) != end() && the stored set contains loc`. -/
def is_modified (mode : Nat) (m : ModMap) (loc : Nat) : Bool :=
  match m mode with
  | some L => L loc
  | none => false

/-- `FSM_Generator::update_modified(mode, modifiers, from, to)`: when
`modifiers` has an entry for `reversecase(mode)`, add to
`modifiers[mode]` the range `from..to` minus that entry; otherwise
insert `from..to` into `modifiers[mode]`. -/
def update_modified (mode : Nat) (m : ModMap) (lo hi : Nat) : ModMap :=
  match m (reversecase mode) with
  | some R =>
      ModMap.update m mode
        ((ModMap.get m mode).union ((Locations.empty.insert lo hi).diff R))
  | none => ModMap.update m mode ((ModMap.get m mode).insert lo hi)

theorem reversecase_ne (c : Nat) (h : c < 256) : reversecase c ≠ c := by
  unfold reversecase
  intro heq
  have hlt : c ^^^ 0x20 < 256 := Nat.xor_lt_two_pow (n := 8) (by omega) (by omega)
  rw [Nat.mod_eq_of_lt hlt] at heq
  have htb := congrArg (fun x => Nat.testBit x 5) heq
  simp only [Nat.testBit_xor] at htb
  rw [show (0x20 : Nat) = 2 ^ 5 from rfl, Nat.testBit_two_pow_self] at htb
  simp at htb

/-- **C10.** `update_modified(mode, modifiers, from, to)` never
overrides an explicitly applied opposite-case modifier: when the map
has an entry `R` for `reversecase(mode)`, (1) that entry is left
unchanged, (2) afterwards `is_modified(mode, ., loc)` holds for every
`loc ∈ from..to` outside `R`, and (3) only locations of `from..to`
outside `R` are added to the `mode` entry. -/
theorem C10_update_modified_frame (mode : Nat) (m : ModMap) (lo hi loc : Nat)
    (hmode : mode < 256) (R : Locations) (hR : m (reversecase mode) = some R) :
    (update_modified mode m lo hi (reversecase mode) = some R) ∧
    (lo ≤ loc → loc ≤ hi → R loc = false →
      is_modified mode (update_modified mode m lo hi) loc = true) ∧
    (is_modified mode (update_modified mode m lo hi) loc = true →
      is_modified mode m loc = true ∨ (lo ≤ loc ∧ loc ≤ hi ∧ R loc = false)) := by
  have hne : reversecase mode ≠ mode := reversecase_ne mode hmode
  unfold update_modified
  rw [hR]
  refine ⟨?_, ?_, ?_⟩
  · simp only [ModMap.update]
    rw [if_neg hne]
    exact hR
  · intro h1 h2 h3
    unfold is_modified
    simp only [ModMap.update, if_pos rfl]
    simp [Locations.union, Locations.diff, Locations.insert, h1, h2, h3]
  · intro h
    unfold is_modified at h ⊢
    simp only [ModMap.update, if_pos rfl] at h
    cases hm : m mode with
    | none =>
      simp [ModMap.get, Locations.union, Locations.diff, Locations.insert] at h
      rw [hm] at h
      simp only [Option.getD_none] at h
      rcases h with h | ⟨h1, h2⟩
      · exact absurd h (by simp [Locations.empty])
      · right
        rcases h1 with h1 | h1
        · exact absurd h1 (by simp [Locations.empty])
        · exact ⟨h1.1, h1.2, h2⟩
    | some L =>
      simp [ModMap.get, Locations.union, Locations.diff, Locations.insert] at h
      rw [hm] at h
      simp only [Option.getD_some] at h
      rcases h with h | ⟨h1, h2⟩
      · left
        exact h
      · right
        rcases h1 with h1 | h1
        · exact absurd h1 (by simp [Locations.empty])
        · exact ⟨h1.1, h1.2, h2⟩

/-- Witness for C10: mode `i` (0x69) with an existing `I` (0x49) entry
covering 5..10; after updating with range 0..20, location 15 is
i-modified. -/
theorem C10_update_modified_frame_witness :
    (0x69 : Nat) < 256 ∧
    (fun k => if k = 0x49 then some (fun x => decide (5 ≤ x ∧ x ≤ 10)) else none :
      ModMap) (reversecase 0x69) = some (fun x => decide (5 ≤ x ∧ x ≤ 10)) ∧
    is_modified 0x69
      (update_modified 0x69
        (fun k => if k = 0x49 then some (fun x => decide (5 ≤ x ∧ x ≤ 10)) else none)
        0 20) 15 = true :=
  ⟨by decide, rfl,
   (C10_update_modified_frame 0x69
      (fun k => if k = 0x49 then some (fun x => decide (5 ≤ x ∧ x ≤ 10)) else none)
      0 20 15 (by decide) (fun x => decide (5 ≤ x ∧ x ≤ 10))
      (rfl)).2.1 (by decide) (by decide) (by decide)⟩

/-! ## Pattern::Predictor::set (pattern.hpp) -/

/-- The fields of `Pattern::Predictor`.  The byte arrays `pref_[256]`,
`bit_[256]`, `pmh_[4096]`, `pma_[4096]` are modelled as functions. -/
structure Predictor where
  pref_ : Nat → Nat
  len_ : Nat
  min_ : Nat
  one_ : Bool
  bit_ : Nat → Nat
  pmh_ : Nat → Nat
  pma_ : Nat → Nat

/-- `Pattern::Predictor::set(const Pred pred[])`.  `pred` is a blob of
bytes (`Pred` = unsigned char), so each read is `pr i % 256`; `none`
models the null pointer, on which nothing is written.  `~x` truncated
to `Pred` is `255 - x` for a byte `x`.  Array cells the code does not
write keep their previous contents, taken from `old`. -/
def Predictor.set (old : Predictor) (pred : Option (Nat → Nat)) : Predictor :=
  match pred with
  | none => old
  | some pr =>
    let rd : Nat → Nat := fun i => pr i % 256
    let len := rd 0
    let minv := rd 1 &&& 0x0f
    let onev := decide (rd 1 &&& 0x10 ≠ 0)
    let pref := fun i => if i < len then rd (i + 2) else old.pref_ i
    if minv > 0 then
      let n := len + 2
      if minv > 1 ∧ len = 0 then
        let bit := fun i => if i < 256 then 255 - rd (i + n) else old.bit_ i
        let n2 := n + 256
        if minv ≥ 4 then
          { pref_ := pref, len_ := len, min_ := minv, one_ := onev, bit_ := bit,
            pmh_ := fun i => if i < HASH then 255 - rd (i + n2) else old.pmh_ i,
            pma_ := old.pma_ }
        else
          { pref_ := pref, len_ := len, min_ := minv, one_ := onev, bit_ := bit,
            pmh_ := old.pmh_,
            pma_ := fun i => if i < HASH then 255 - rd (i + n2) else old.pma_ i }
      else
        if minv ≥ 4 then
          { pref_ := pref, len_ := len, min_ := minv, one_ := onev, bit_ := old.bit_,
            pmh_ := fun i => if i < HASH then 255 - rd (i + n) else old.pmh_ i,
            pma_ := old.pma_ }
        else
          { pref_ := pref, len_ := len, min_ := minv, one_ := onev, bit_ := old.bit_,
            pmh_ := old.pmh_,
            pma_ := fun i => if i < HASH then 255 - rd (i + n) else old.pma_ i }
    else
      { pref_ := pref, len_ := len, min_ := minv, one_ := onev,
        bit_ := old.bit_, pmh_ := old.pmh_, pma_ := old.pma_ }

/-- **C3.** `Predictor::set(pred)`, for every non-null blob, decodes
`len_ = pred[0]`, `min_ = pred[1] & 0x0f`, `one_ = bit 4 of pred[1]`,
copies the next `len_` bytes into `pref_`; when `min_ > 0` it reads the
256-byte bitap table (complemented) iff `min_ > 1 && len_ == 0`, and
after that reads 4096 complemented bytes into `pmh_` if `min_ >= 4`,
else into `pma_`; when `min_ = 0` no filter table is read at all. -/
theorem C3_predictor_set_decode (old : Predictor) (pr : Nat → Nat) :
    ((old.set (some pr)).len_ = pr 0 % 256) ∧
    ((old.set (some pr)).min_ = pr 1 % 256 &&& 0x0f) ∧
    ((old.set (some pr)).one_ = true ↔ pr 1 % 256 &&& 0x10 ≠ 0) ∧
    (∀ i, i < pr 0 % 256 → (old.set (some pr)).pref_ i = pr (i + 2) % 256) ∧
    (pr 1 % 256 &&& 0x0f > 1 ∧ pr 0 % 256 = 0 →
      ∀ i, i < 256 →
        (old.set (some pr)).bit_ i = 255 - pr (i + (pr 0 % 256 + 2)) % 256) ∧
    (¬(pr 1 % 256 &&& 0x0f > 1 ∧ pr 0 % 256 = 0) →
      (old.set (some pr)).bit_ = old.bit_) ∧
    (pr 1 % 256 &&& 0x0f = 0 →
      (old.set (some pr)).pmh_ = old.pmh_ ∧ (old.set (some pr)).pma_ = old.pma_) ∧
    (pr 1 % 256 &&& 0x0f > 0 → pr 1 % 256 &&& 0x0f ≥ 4 →
      (∀ i, i < HASH → (old.set (some pr)).pmh_ i =
        255 - pr (i + (pr 0 % 256 + 2 +
          (if pr 1 % 256 &&& 0x0f > 1 ∧ pr 0 % 256 = 0 then 256 else 0))) % 256) ∧
      (old.set (some pr)).pma_ = old.pma_) ∧
    (pr 1 % 256 &&& 0x0f > 0 → pr 1 % 256 &&& 0x0f < 4 →
      (∀ i, i < HASH → (old.set (some pr)).pma_ i =
        255 - pr (i + (pr 0 % 256 + 2 +
          (if pr 1 % 256 &&& 0x0f > 1 ∧ pr 0 % 256 = 0 then 256 else 0))) % 256) ∧
      (old.set (some pr)).pmh_ = old.pmh_) := by
  by_cases hm0 : pr 1 % 256 &&& 0x0f > 0
  · by_cases hb : pr 1 % 256 &&& 0x0f > 1 ∧ pr 0 % 256 = 0
    · by_cases h4 : pr 1 % 256 &&& 0x0f ≥ 4
      · refine ⟨?_, ?_, ?_, ?_, ?_, ?_, ?_, ?_, ?_⟩ <;>
          simp [Predictor.set, hm0, hb, h4] <;>
          (intros; omega)
      · refine ⟨?_, ?_, ?_, ?_, ?_, ?_, ?_, ?_, ?_⟩ <;>
          simp [Predictor.set, hm0, hb, h4] <;>
          (intros; omega)
    · by_cases h4 : pr 1 % 256 &&& 0x0f ≥ 4
      · refine ⟨?_, ?_, ?_, ?_, ?_, ?_, ?_, ?_, ?_⟩ <;>
          simp [Predictor.set, hm0, hb, h4] <;>
          (intros; omega)
      · refine ⟨?_, ?_, ?_, ?_, ?_, ?_, ?_, ?_, ?_⟩ <;>
          simp [Predictor.set, hm0, hb, h4] <;>
          (intros; omega)
  · refine ⟨?_, ?_, ?_, ?_, ?_, ?_, ?_, ?_, ?_⟩ <;>
      simp [Predictor.set, hm0] <;>
        (intros; omega)

/-- Witness for C3: a concrete blob with `len = 1`, `min = 2`,
`one = 1` (header byte 0x12) and payload bytes 7: the prefix byte is
read at offset 2 and the pma table at offset 3, complemented. -/
theorem C3_predictor_set_decode_witness :
    (0 : Nat) < (fun i => if i = 0 then 1 else if i = 1 then 0x12 else 7 : Nat → Nat) 0 % 256 ∧
    (Predictor.set ⟨fun _ => 0, 0, 0, false, fun _ => 0, fun _ => 0, fun _ => 0⟩
      (some (fun i => if i = 0 then 1 else if i = 1 then 0x12 else 7))).pref_ 0 =
      (fun i => if i = 0 then 1 else if i = 1 then 0x12 else 7 : Nat → Nat) (0 + 2) % 256 ∧
    (Predictor.set ⟨fun _ => 0, 0, 0, false, fun _ => 0, fun _ => 0, fun _ => 0⟩
      (some (fun i => if i = 0 then 1 else if i = 1 then 0x12 else 7))).pma_ 5 =
      255 - (fun i => if i = 0 then 1 else if i = 1 then 0x12 else 7 : Nat → Nat)
        (5 + ((fun i => if i = 0 then 1 else if i = 1 then 0x12 else 7 : Nat → Nat) 0 % 256 + 2 +
          (if (fun i => if i = 0 then 1 else if i = 1 then 0x12 else 7 : Nat → Nat) 1 % 256 &&& 0x0f > 1 ∧
              (fun i => if i = 0 then 1 else if i = 1 then 0x12 else 7 : Nat → Nat) 0 % 256 = 0
            then 256 else 0))) % 256 :=
  ⟨by decide,
   (C3_predictor_set_decode ⟨fun _ => 0, 0, 0, false, fun _ => 0, fun _ => 0, fun _ => 0⟩
      (fun i => if i = 0 then 1 else if i = 1 then 0x12 else 7)).2.2.2.1 0 (by decide),
   ((C3_predictor_set_decode ⟨fun _ => 0, 0, 0, false, fun _ => 0, fun _ => 0, fun _ => 0⟩
      (fun i => if i = 0 then 1 else if i = 1 then 0x12 else 7)).2.2.2.2.2.2.2.2
      (by decide) (by decide)).1 5 (by decide)⟩

end Reflex
